import Mathlib

/-!
Formal model of the discrete-event queueing simulations in `TaskA.py`
(supermarket checkout) and `TaskB.py` (library circulation desk),
embedded shallowly: virtual time is `ℚ`, every pseudorandom draw is an
explicit oracle argument, and the statistics bookkeeping of the Python
code is re-expressed as pure state-transition functions.  Each theorem
below settles one documented property of the two models against these
definitions.
-/

namespace MS4

/-- Python `random.uniform(a, b)` with the unit draw `u` made explicit:
CPython computes `a + (b - a) * random()`. -/
def uniformSample (a b u : ℚ) : ℚ := a + (b - a) * u

/-- TaskB.py lines 30-34 (`ReaderProcess`): librarian selection.
`load i` is `self.librarians[i].count + len(self.librarians[i].queue)`;
`busy i` is `self.statistic['LibrarianBusy'][i]`.  The Python code is
`if load0 < load1: 0  elif load1 < load0: 1
 else: 0 if busy0 < busy1 else 1`. -/
def selectLibrarian (load0 load1 : ℕ) (busy0 busy1 : ℚ) : ℕ :=
  if load0 < load1 then 0
  else if load1 < load0 then 1
  else if busy0 < busy1 then 0 else 1

/-- TaskA.py lines 86-91 (`VisitCounters`): counter selection time drawn
`random.uniform(max(0, base - variation), base + variation)` — the lower
clamp is 0, not a strictly positive floor. -/
def counterSelectionTime (base variation u : ℚ) : ℚ :=
  uniformSample (max 0 (base - variation)) (base + variation) u

/-- TaskB.py line 45 (`ReaderProcess`): service interval drawn
`random.uniform(max(1, base - variation), base + variation)`. -/
def libraryServeTime (base variation u : ℚ) : ℚ :=
  uniformSample (max 1 (base - variation)) (base + variation) u

/-- TaskB.py line 63 (`ReaderGenerator`, uniform law): inter-arrival gap
drawn `random.uniform(max(1, base - variation), base + variation)`. -/
def libraryUniformGap (base variation u : ℚ) : ℚ :=
  uniformSample (max 1 (base - variation)) (base + variation) u

/-- TaskB.py line 76 (`ReaderGenerator`, normal law): inter-arrival gap
`max(0.1, random.gauss(base, variation))`; `g` is the gauss draw. -/
def libraryNormalGap (g : ℚ) : ℚ := max (1/10) g

/-- TaskA.py line 135 (`CustomerGenerator`) and TaskB.py line 69
(`ReaderGenerator`, exponential law): the inter-arrival gap is the raw
`random.expovariate` result `e`, passed to `env.timeout` with no clamp.
(`expovariate` evaluates `-log(1 - random()) / lambd`, which is `0.0`
exactly when the underlying uniform draw is `0.0`, an attainable value.) -/
def exponentialGap (e : ℚ) : ℚ := e

/-- The four arrival-law tags recognized by `ReaderGenerator`
(TaskB.py lines 60, 67, 73, 80). -/
def knownArrivalLaws : List String :=
  ["Безперервний рівномірний", "Експоненційний", "Нормальний", "Пуассона"]

/-- Outcome of starting `ReaderGenerator`: either it schedules its first
timeout (after which it spawns a reader and loops), or the generator body
falls through every branch and returns, scheduling nothing at all. -/
inductive GenAction where
  | timeoutThenSpawn (delay : ℚ)
  | exitNoSpawn
  deriving DecidableEq

/-- TaskB.py lines 58-86 (`ReaderGenerator`): dispatch on the arrival-law
tag, giving the generator's first action.  The result is wrapped in
`Except` so that "raises a configuration error" is expressible; the Python
function contains no `raise` and accesses no parameter on the unmatched
path, so every branch returns `Except.ok`.  `base`/`spread` are
`params['ArrivalTime']`; `draw` is the law's first random draw (for the
exponential law the `expovariate` result, for the normal law the `gauss`
result). -/
def readerGeneratorFirst (law : String) (base spread draw : ℚ) :
    Except String GenAction :=
  if law = "Безперервний рівномірний" then
    Except.ok (GenAction.timeoutThenSpawn (libraryUniformGap base spread draw))
  else if law = "Експоненційний" then
    Except.ok (GenAction.timeoutThenSpawn (exponentialGap draw))
  else if law = "Нормальний" then
    Except.ok (GenAction.timeoutThenSpawn (libraryNormalGap draw))
  else if law = "Пуассона" then
    Except.ok (GenAction.timeoutThenSpawn 3600)
  else Except.ok GenAction.exitNoSpawn

/-- Any point of `uniformSample a b u` with `a ≤ b` and `0 ≤ u ≤ 1` lies
at or above the lower endpoint. -/
lemma uniformSample_lower (a b u : ℚ) (hab : a ≤ b) (hu0 : 0 ≤ u) :
    a ≤ uniformSample a b u := by
  have h : 0 ≤ (b - a) * u := mul_nonneg (by linarith) hu0
  simp only [uniformSample]
  linarith

/-- C1 counterexample: with both librarians idle and equally unbusy
(loads `0, 0`, cumulative busy times `0, 0`), the code selects librarian
index 1, not index 0 as claimed — the final tie-break
`0 if busy0 < busy1 else 1` takes its `else` branch on exact equality. -/
theorem selectLibrarian_full_tie_cex :
    selectLibrarian 0 0 0 0 = 1 ∧ selectLibrarian 0 0 0 0 ≠ 0 := by
  decide

/-- C1 (amended): whenever both librarians have equal `(active+queued)`
load and equal cumulative busy time, the reader deterministically selects
librarian index 1. -/
theorem selectLibrarian_full_tie_picks_second (l0 l1 : ℕ) (b0 b1 : ℚ)
    (hl : l0 = l1) (hb : b0 = b1) : selectLibrarian l0 l1 b0 b1 = 1 := by
  subst hl; subst hb
  simp [selectLibrarian]

/-- C1 witness: the amended selection theorem applied at the all-idle,
all-unbusy tie. -/
theorem selectLibrarian_full_tie_witness :
    (0 : ℕ) = 0 ∧ (0 : ℚ) = 0 ∧ selectLibrarian 0 0 0 0 = 1 :=
  ⟨rfl, rfl, selectLibrarian_full_tie_picks_second 0 0 0 0 rfl rfl⟩

/-- C5 counterexample: with the unrecognized tag "Рівномірний дискретний"
the generator neither raises a configuration error nor schedules any
arrival: it returns normally having spawned nothing, so the run proceeds
silently with zero arrivals (refuting the claimed synchronous error). -/
theorem unknown_arrival_law_cex :
    readerGeneratorFirst "Рівномірний дискретний" 480 120 0 =
      Except.ok GenAction.exitNoSpawn
  ∧ ∀ msg : String,
      readerGeneratorFirst "Рівномірний дискретний" 480 120 0 ≠
        Except.error msg := by
  have hok : readerGeneratorFirst "Рівномірний дискретний" 480 120 0 =
      Except.ok GenAction.exitNoSpawn := rfl
  refine ⟨hok, fun msg h => ?_⟩
  rw [hok] at h
  exact Except.noConfusion h

/-- C5 (amended): for every tag outside the four recognized arrival laws,
`ReaderGenerator` raises nothing and schedules nothing — the run completes
silently with zero arrivals instead of reporting a configuration error. -/
theorem unknown_arrival_law_silent (law : String) (base spread draw : ℚ)
    (h : law ∉ knownArrivalLaws) :
    readerGeneratorFirst law base spread draw =
      Except.ok GenAction.exitNoSpawn := by
  simp only [knownArrivalLaws, List.mem_cons, List.mem_singleton,
    not_or] at h
  obtain ⟨h1, h2, h3, h4, -⟩ := h
  simp only [readerGeneratorFirst, if_neg h1, if_neg h2, if_neg h3, if_neg h4]

/-- C5 witness: the amended theorem applied at a concrete unrecognized
tag. -/
theorem unknown_arrival_law_witness :
    "Рівномірний" ∉ knownArrivalLaws
  ∧ readerGeneratorFirst "Рівномірний" 480 120 7 =
      Except.ok GenAction.exitNoSpawn :=
  ⟨by decide, unknown_arrival_law_silent "Рівномірний" 480 120 7 (by decide)⟩

/-- C7 counterexample: exponential inter-arrival gaps are used as timeouts
with no clamp, so the attainable `expovariate` result 0 schedules a delay
that is not strictly positive — the claimed strictly positive floor does
not exist for this sampled duration. -/
theorem exponential_gap_zero_cex :
    exponentialGap 0 = 0 ∧ ¬ (0 < exponentialGap 0) := by
  norm_num [exponentialGap]

/-- C7 (amended): library uniform inter-arrival gaps and service times are
clamped to the strictly positive floor 1 and normal gaps to 1/10, but
retail counter selection times are clamped only to the floor 0 (not
strictly positive), and exponential inter-arrival gaps equal the raw draw
with no clamp at all. -/
theorem sampled_duration_floors (base spread u g e : ℚ)
    (hu0 : 0 ≤ u) (hsp : 0 ≤ spread) (hb : 1 ≤ base + spread) :
    1 ≤ libraryServeTime base spread u
  ∧ 1 ≤ libraryUniformGap base spread u
  ∧ 1/10 ≤ libraryNormalGap g
  ∧ 0 ≤ counterSelectionTime base spread u
  ∧ exponentialGap e = e := by
  have hab1 : max 1 (base - spread) ≤ base + spread :=
    max_le hb (by linarith)
  have hab0 : max 0 (base - spread) ≤ base + spread :=
    max_le (by linarith) (by linarith)
  refine ⟨?_, ?_, ?_, ?_, rfl⟩
  · exact le_trans (le_max_left 1 (base - spread))
      (uniformSample_lower _ _ _ hab1 hu0)
  · exact le_trans (le_max_left 1 (base - spread))
      (uniformSample_lower _ _ _ hab1 hu0)
  · exact le_max_left (1/10) g
  · exact le_trans (le_max_left 0 (base - spread))
      (uniformSample_lower _ _ _ hab0 hu0)

/-- C7 witness: the amended floor theorem applied at the default library
configuration (8±2 minutes, unit draw 0). -/
theorem sampled_duration_floors_witness :
    (0 : ℚ) ≤ 0 ∧ (0 : ℚ) ≤ 120 ∧ (1 : ℚ) ≤ 480 + 120
  ∧ (1 ≤ libraryServeTime 480 120 0
     ∧ 1 ≤ libraryUniformGap 480 120 0
     ∧ 1/10 ≤ libraryNormalGap 0
     ∧ 0 ≤ counterSelectionTime 480 120 0
     ∧ exponentialGap 0 = 0) :=
  ⟨le_refl 0, by norm_num, by norm_num,
    sampled_duration_floors 480 120 0 0 0 (le_refl 0) (by norm_num)
      (by norm_num)⟩

/-! ## The capacity-1 FIFO checkout (TaskA `CashierProcess`)

`simpy.Resource(env, capacity = 1)` grants requests in FIFO order.  For
customers indexed in the order in which they reach the checkout stage, with
`a n` the virtual time at which customer `n` executes
`queueStartTime = self.env.now` (TaskA line 57) and `s n` its deterministic
service duration `totalPurchases * payTimePerItem`, the grant instant is
the recurrence below: customer 0 is granted on arrival, and customer `n+1`
is granted as soon as it has arrived and customer `n` has released. -/

/-- Grant (service-start) time of the `n`-th customer at the capacity-1
FIFO checkout. -/
def cashierStart (a s : ℕ → ℚ) : ℕ → ℚ
  | 0 => a 0
  | n + 1 => max (a (n + 1)) (cashierStart a s n + s n)

/-- Service-completion time of the `n`-th customer: its grant time plus its
service duration (`yield self.env.timeout(serviceTime)`, TaskA line 118). -/
def cashierFinish (a s : ℕ → ℚ) (n : ℕ) : ℚ := cashierStart a s n + s n

/-- TaskA lines 57-59: the recorded `waitTime` is
`self.env.now - queueStartTime` measured only after
`yield from self.CashierProcess(...)` has returned, i.e. after the service
timeout has elapsed, so it spans from joining the queue to service
completion. -/
def recordedWaitTime (a s : ℕ → ℚ) (n : ℕ) : ℚ := cashierFinish a s n - a n

/-- TaskB lines 37-41: `queueWait = self.env.now - queueStart` is measured
directly after `yield req`, i.e. at the grant instant — the pure queueing
delay, excluding service. -/
def queueWaitTime (a s : ℕ → ℚ) (n : ℕ) : ℚ := cashierStart a s n - a n

/-- Scenario B arrivals: all ten customers reach the checkout at `t = 0`. -/
def burstArrival : ℕ → ℚ := fun _ => 0

/-- Scenario B service: every customer has a deterministic 5-second
service. -/
def burstService : ℕ → ℚ := fun _ => 5

/-- In the burst scenario the `n`-th customer (0-based) is granted the
checkout at `5 * n`. -/
lemma cashierStart_burst (n : ℕ) :
    cashierStart burstArrival burstService n = 5 * n := by
  induction n with
  | zero => simp [cashierStart, burstArrival]
  | succ k ih =>
      have h5 : (0 : ℚ) ≤ 5 * k + 5 := by positivity
      simp only [cashierStart, burstArrival, burstService, ih]
      rw [max_eq_right h5]
      push_cast
      ring

/-- In the burst scenario the `n`-th customer finishes service at
`5 * (n + 1)`. -/
lemma cashierFinish_burst (n : ℕ) :
    cashierFinish burstArrival burstService n = 5 * (n + 1) := by
  simp only [cashierFinish, cashierStart_burst, burstService]
  ring

/-- C2: in Scenario B (ten customers reaching an idle capacity-1 checkout
at `t = 0`, deterministic 5-second service) the 1st customer — which finds
the checkout idle — records `waitTime = 5`, not 0, and the 10th records
`50`, not `45`: TaskA measures `waitTime` across `CashierProcess`, so the
recorded value is queueing delay *plus* service (`k * 5` for the `k`-th
customer, 1-based), while the true queueing delay of the 1st customer
(grant minus arrival, as TaskB measures it) is 0. -/
theorem recordedWait_burst_includes_service :
    recordedWaitTime burstArrival burstService 0 = 5
  ∧ recordedWaitTime burstArrival burstService 9 = 50
  ∧ queueWaitTime burstArrival burstService 0 = 0 := by
  refine ⟨?_, ?_, ?_⟩ <;>
    norm_num [recordedWaitTime, queueWaitTime, cashierFinish_burst,
      cashierStart_burst, burstArrival]

/-! ## Cashier busy-time accounting (TaskA lines 106-107, 120-122, 147-148)

`cashierBusyStart` is armed when a customer enters `CashierProcess` while
the marker is `None` (lines 106-107, *before* the resource request), and is
cleared — crediting `now - cashierBusyStart` — by whichever service
completion finds it armed (lines 120-122).  `RunSim` (lines 147-148)
credits a still-armed marker up to the horizon.  The two statement groups
are modelled as events on the accounting state. -/

/-- An accounting-relevant event of `CashierProcess`: a customer executing
lines 106-107 at time `t` (`enter t`), or a service timeout elapsing at
time `t` followed by lines 120-122 (`finishServe t`). -/
inductive CashierEv where
  | enter (t : ℚ)
  | finishServe (t : ℚ)
  deriving DecidableEq

/-- The virtual time at which an accounting event occurs. -/
def evTime : CashierEv → ℚ
  | .enter t => t
  | .finishServe t => t

/-- The cashier busy-time accounting state:
`busyStart` is `self.cashierBusyStart`, `busyTime` is
`self.stats['cashierBusyTime']`. -/
structure CashierAcct where
  busyStart : Option ℚ
  busyTime : ℚ
  deriving DecidableEq

/-- One accounting step.  `enter`: lines 106-107 (`if cashierBusyStart is
None: cashierBusyStart = env.now`).  `finishServe`: lines 120-122 (`if
cashierBusyStart is not None: cashierBusyTime += now - cashierBusyStart;
cashierBusyStart = None`). -/
def stepAcct (st : CashierAcct) : CashierEv → CashierAcct
  | .enter t =>
      match st.busyStart with
      | none => { st with busyStart := some t }
      | some _ => st
  | .finishServe t =>
      match st.busyStart with
      | some s => { busyStart := none, busyTime := st.busyTime + (t - s) }
      | none => st

/-- The accounting state after a run, starting from the initial state
(`cashierBusyStart = None`, `cashierBusyTime = 0`, Supermarket.__init__). -/
def runAcct (evs : List CashierEv) : CashierAcct :=
  evs.foldl stepAcct ⟨none, 0⟩

/-- The reported `cashierBusyTime` after `RunSim`: the run's accumulated
busy time, plus the horizon-close correction of lines 147-148 if the
marker is still armed. -/
def finalBusy (evs : List CashierEv) (h : ℚ) : ℚ :=
  match runAcct evs with
  | ⟨some s, b⟩ => b + (h - s)
  | ⟨none, b⟩ => b

/-- `chainFromB t evs` holds when the event times of `evs` are
nondecreasing and bounded below by `t` (virtual time never runs
backwards). -/
def chainFromB (t : ℚ) : List CashierEv → Bool
  | [] => true
  | e :: r => decide (t ≤ evTime e) && chainFromB (evTime e) r

/-- The ten `enter` events at `t = 0` followed by the ten service
completions of Scenario B (at times `5, 10, …, 50`, by
`cashierFinish_burst`): every customer runs lines 103-107 during its
initial step at `t = 0`, before the first service completes. -/
def burstCashierTrace : List CashierEv :=
  [CashierEv.enter 0, CashierEv.enter 0, CashierEv.enter 0,
   CashierEv.enter 0, CashierEv.enter 0, CashierEv.enter 0,
   CashierEv.enter 0, CashierEv.enter 0, CashierEv.enter 0,
   CashierEv.enter 0,
   CashierEv.finishServe 5, CashierEv.finishServe 10,
   CashierEv.finishServe 15, CashierEv.finishServe 20,
   CashierEv.finishServe 25, CashierEv.finishServe 30,
   CashierEv.finishServe 35, CashierEv.finishServe 40,
   CashierEv.finishServe 45, CashierEv.finishServe 50]

/-- C3: in Scenario B the code reports a cumulative checkout busy time of
5 seconds, not the claimed 50: the marker armed at `t = 0` is cleared by
the *first* service completion at `t = 5` (even though nine customers are
still queued), and no later customer re-arms it, so the remaining nine
services are never credited.  The horizon close (lines 147-148) adds
nothing since the marker ends unarmed. -/
theorem cashierBusyTime_burst_eval :
    finalBusy burstCashierTrace 3600 = 5 ∧ (5 : ℚ) ≠ 50 := by
  constructor
  · simp only [finalBusy, runAcct, burstCashierTrace, List.foldl_cons,
      List.foldl_nil, stepAcct]
    norm_num
  · norm_num

/-! ## Busy time versus the horizon (C4) -/

/-- Accounting invariant at lower time bound `t`: the accumulated busy
time is nonnegative; if the marker is unarmed the accumulated time is at
most `t`, and if armed at `s` then the accumulated time is at most `s`
and `s ≤ t` (credited intervals are disjoint sub-intervals of `[0, t]`). -/
def AcctInv (st : CashierAcct) (t : ℚ) : Prop :=
  0 ≤ st.busyTime ∧ (st.busyStart = none → st.busyTime ≤ t) ∧
    ∀ s, st.busyStart = some s → st.busyTime ≤ s ∧ s ≤ t

lemma acctInv_mono {st : CashierAcct} {t t2 : ℚ} (h : AcctInv st t)
    (ht : t ≤ t2) : AcctInv st t2 := by
  obtain ⟨h0, hnone, hsome⟩ := h
  refine ⟨h0, fun hn => le_trans (hnone hn) ht, fun s hs => ?_⟩
  exact ⟨(hsome s hs).1, le_trans (hsome s hs).2 ht⟩

lemma acctInv_step {st : CashierAcct} {t : ℚ} (e : CashierEv)
    (h : AcctInv st t) (ht : t ≤ evTime e) :
    AcctInv (stepAcct st e) (evTime e) := by
  obtain ⟨h0, hnone, hsome⟩ := h
  cases e with
  | enter u =>
      simp only [evTime] at ht ⊢
      cases hs : st.busyStart with
      | none =>
          simp only [stepAcct, hs]
          refine ⟨h0, fun hn => ?_, fun s2 hs2 => ?_⟩
          · exact absurd hn (by simp)
          · obtain rfl : u = s2 := by injection hs2
            exact ⟨le_trans (hnone hs) ht, le_refl u⟩
      | some s =>
          simp only [stepAcct, hs]
          refine ⟨h0, fun hn => absurd (hs.symm.trans hn) (by simp),
            fun s2 hs2 => ?_⟩
          rw [hs] at hs2
          obtain rfl : s = s2 := by injection hs2
          exact ⟨(hsome s hs).1, le_trans (hsome s hs).2 ht⟩
  | finishServe u =>
      simp only [evTime] at ht ⊢
      cases hs : st.busyStart with
      | none =>
          simp only [stepAcct, hs]
          exact ⟨h0, fun _ => le_trans (hnone hs) ht, fun s2 hs2 => by
            rw [hs] at hs2; exact Option.noConfusion hs2⟩
      | some s =>
          obtain ⟨hbs, hst⟩ := hsome s hs
          have hsu : s ≤ u := le_trans hst ht
          simp only [stepAcct, hs]
          refine ⟨?_, fun _ => ?_, fun s2 hs2 => by exact Option.noConfusion hs2⟩
          · show 0 ≤ st.busyTime + (u - s)
            linarith
          · show st.busyTime + (u - s) ≤ u
            linarith

lemma acctInv_fold (evs : List CashierEv) :
    ∀ (st : CashierAcct) (t h : ℚ), AcctInv st t →
      chainFromB t evs = true → (∀ e ∈ evs, evTime e ≤ h) → t ≤ h →
      AcctInv (evs.foldl stepAcct st) h := by
  induction evs with
  | nil => intro st t h hinv _ _ hth; exact acctInv_mono hinv hth
  | cons e r ih =>
      intro st t h hinv hchain hbound hth
      simp only [chainFromB, Bool.and_eq_true, decide_eq_true_eq] at hchain
      obtain ⟨hte, hchain⟩ := hchain
      have hstep : AcctInv (stepAcct st e) (evTime e) :=
        acctInv_step e hinv hte
      have heh : evTime e ≤ h := hbound e (List.mem_cons_self e r)
      exact ih (stepAcct st e) (evTime e) h hstep hchain
        (fun x hx => hbound x (List.mem_cons_of_mem e hx)) heh

/-! ## Librarian busy-time accounting (TaskB line 51)

`LibrarianBusy[idx] += env.now - startServe` runs only when a reader's
service timeout elapses *before* the horizon; `RunSim` in TaskB (lines
135-142) has no horizon correction.  Given the chronological list of a
librarian's services as `(start, duration)` pairs, the reported busy time
is the sum of the durations of the services that complete strictly before
the horizon. -/

/-- Reported cumulative busy time of one librarian over the service
schedule `svc` with horizon `h`. -/
def librarianBusyCredit : List (ℚ × ℚ) → ℚ → ℚ
  | [], _ => 0
  | sd :: r, h =>
      (if sd.1 + sd.2 < h then sd.2 else 0) + librarianBusyCredit r h

/-- `svcChainB t svc`: the schedule `svc` is sequential for a capacity-1
librarian — each service starts no earlier than `t`, has nonnegative
duration, and the next service starts no earlier than this one finishes. -/
def svcChainB (t : ℚ) : List (ℚ × ℚ) → Bool
  | [] => true
  | sd :: r =>
      decide (t ≤ sd.1) && decide (0 ≤ sd.2) && svcChainB (sd.1 + sd.2) r

lemma librarianBusyCredit_zero_of_le (svc : List (ℚ × ℚ)) :
    ∀ t h : ℚ, svcChainB t svc = true → h ≤ t →
      librarianBusyCredit svc h = 0 := by
  induction svc with
  | nil => intro t h _ _; rfl
  | cons sd r ih =>
      intro t h hchain hht
      simp only [svcChainB, Bool.and_eq_true, decide_eq_true_eq] at hchain
      obtain ⟨⟨hts, hd⟩, hchain⟩ := hchain
      have hnot : ¬ (sd.1 + sd.2 < h) := by
        push_neg
        calc h ≤ t := hht
          _ ≤ sd.1 := hts
          _ ≤ sd.1 + sd.2 := by linarith
      simp only [librarianBusyCredit, if_neg hnot]
      rw [ih (sd.1 + sd.2) h hchain (by linarith [le_trans hht hts])]
      ring

lemma librarianBusyCredit_le (svc : List (ℚ × ℚ)) :
    ∀ t h : ℚ, svcChainB t svc = true → t ≤ h →
      librarianBusyCredit svc h ≤ h - t := by
  induction svc with
  | nil =>
      intro t h _ hth
      simp only [librarianBusyCredit]
      linarith
  | cons sd r ih =>
      intro t h hchain hth
      simp only [svcChainB, Bool.and_eq_true, decide_eq_true_eq] at hchain
      obtain ⟨⟨hts, hd⟩, hchain⟩ := hchain
      by_cases hfin : sd.1 + sd.2 ≤ h
      · have hrest : librarianBusyCredit r h ≤ h - (sd.1 + sd.2) :=
          ih (sd.1 + sd.2) h hchain hfin
        simp only [librarianBusyCredit]
        by_cases hlt : sd.1 + sd.2 < h
        · rw [if_pos hlt]; linarith
        · rw [if_neg hlt]; linarith
      · push_neg at hfin
        have hnot : ¬ (sd.1 + sd.2 < h) := by linarith
        simp only [librarianBusyCredit, if_neg hnot]
        rw [librarianBusyCredit_zero_of_le r (sd.1 + sd.2) h hchain
          (le_of_lt hfin)]
        linarith

lemma librarianBusyCredit_nonneg (svc : List (ℚ × ℚ)) :
    ∀ t h : ℚ, svcChainB t svc = true →
      0 ≤ librarianBusyCredit svc h := by
  induction svc with
  | nil => intro t h _; simp [librarianBusyCredit]
  | cons sd r ih =>
      intro t h hchain
      simp only [svcChainB, Bool.and_eq_true, decide_eq_true_eq] at hchain
      obtain ⟨⟨hts, hd⟩, hchain⟩ := hchain
      have hrest := ih (sd.1 + sd.2) h hchain
      simp only [librarianBusyCredit]
      by_cases hlt : sd.1 + sd.2 < h
      · rw [if_pos hlt]; linarith
      · rw [if_neg hlt]; linarith

lemma librarianBusyCredit_append (pre : List (ℚ × ℚ)) (sd : ℚ × ℚ)
    (h : ℚ) :
    librarianBusyCredit (pre ++ [sd]) h =
      librarianBusyCredit pre h + (if sd.1 + sd.2 < h then sd.2 else 0) := by
  induction pre with
  | nil => simp [librarianBusyCredit]
  | cons x r ih =>
      simp only [List.cons_append, librarianBusyCredit, List.append_eq, ih]
      ring

/-- C4 (amended): the retail checkout's reported busy time (after the
horizon close of TaskA lines 147-148) never exceeds the horizon, and a
marker still armed at the horizon is credited exactly `horizon - start`;
each librarian's reported busy time also never exceeds the horizon, but a
librarian service still in progress when the horizon is reached
contributes nothing — TaskB has no horizon close, so the open interval is
dropped, not closed at the horizon. -/
theorem busy_time_horizon_amended (evs : List CashierEv) (h : ℚ)
    (svc : List (ℚ × ℚ))
    (hchain : chainFromB 0 evs = true)
    (hbound : ∀ e ∈ evs, evTime e ≤ h) (hh : 0 ≤ h)
    (hsvc : svcChainB 0 svc = true) :
    (0 ≤ finalBusy evs h ∧ finalBusy evs h ≤ h)
  ∧ (∀ s b, runAcct evs = ⟨some s, b⟩ → finalBusy evs h = b + (h - s))
  ∧ (0 ≤ librarianBusyCredit svc h ∧ librarianBusyCredit svc h ≤ h)
  ∧ (∀ pre s d, svc = pre ++ [(s, d)] → ¬ (s + d < h) →
      librarianBusyCredit svc h = librarianBusyCredit pre h) := by
  have hinv0 : AcctInv ⟨none, 0⟩ 0 :=
    ⟨le_refl 0, fun _ => le_refl 0, fun s hs => by exact Option.noConfusion hs⟩
  have hinv : AcctInv (runAcct evs) h :=
    acctInv_fold evs ⟨none, 0⟩ 0 h hinv0 hchain hbound hh
  refine ⟨?_, ?_, ?_, ?_⟩
  · obtain ⟨h0, hnone, hsome⟩ := hinv
    cases hs : runAcct evs with
    | mk start b =>
        cases start with
        | none =>
            rw [hs] at h0 hnone
            simp only [finalBusy, hs]
            exact ⟨h0, hnone rfl⟩
        | some s =>
            rw [hs] at h0 hsome
            obtain ⟨hbs, hsh⟩ := hsome s rfl
            simp only [finalBusy, hs]
            constructor
            · linarith
            · linarith
  · intro s b hs
    simp only [finalBusy, hs]
  · exact ⟨librarianBusyCredit_nonneg svc 0 h hsvc,
      by linarith [librarianBusyCredit_le svc 0 h hsvc hh]⟩
  · intro pre s d hsplit hopen
    rw [hsplit, librarianBusyCredit_append]
    simp only [if_neg hopen]
    ring

/-- C4 witness: the amended theorem applied to the concrete run with
events `enter 0, finishServe 2, enter 3`, horizon 10, and librarian
schedule `[(0, 2), (3, 9)]` (the second service is still open at the
horizon and is dropped). -/
theorem busy_time_horizon_witness :
    chainFromB 0 [CashierEv.enter 0, CashierEv.finishServe 2,
        CashierEv.enter 3] = true
  ∧ svcChainB 0 [((0 : ℚ), (2 : ℚ)), (3, 9)] = true
  ∧ ((0 ≤ finalBusy [CashierEv.enter 0, CashierEv.finishServe 2,
        CashierEv.enter 3] 10
      ∧ finalBusy [CashierEv.enter 0, CashierEv.finishServe 2,
          CashierEv.enter 3] 10 ≤ 10)
  ∧ (∀ s b, runAcct [CashierEv.enter 0, CashierEv.finishServe 2,
        CashierEv.enter 3] = ⟨some s, b⟩ →
        finalBusy [CashierEv.enter 0, CashierEv.finishServe 2,
          CashierEv.enter 3] 10 = b + (10 - s))
  ∧ (0 ≤ librarianBusyCredit [((0 : ℚ), (2 : ℚ)), (3, 9)] 10
      ∧ librarianBusyCredit [((0 : ℚ), (2 : ℚ)), (3, 9)] 10 ≤ 10)
  ∧ (∀ pre s d, [((0 : ℚ), (2 : ℚ)), (3, 9)] = pre ++ [(s, d)] →
      ¬ (s + d < 10) →
      librarianBusyCredit [((0 : ℚ), (2 : ℚ)), (3, 9)] 10 =
        librarianBusyCredit pre 10)) :=
  ⟨by decide,
    by norm_num [svcChainB, Bool.and_eq_true, decide_eq_true_eq],
    busy_time_horizon_amended _ 10 _ (by decide) (by decide) (by norm_num)
      (by norm_num [svcChainB, Bool.and_eq_true, decide_eq_true_eq])⟩

/-! ## The two-librarian run (TaskB `ReaderProcess` scheduling)

Each librarian is a capacity-1 FIFO `simpy.Resource`.  A reader arriving at
time `t` with service duration `d` selects a librarian from the state
visible at its arrival instant (`selectLibrarian` above), then starts
service at `max t (finish of the librarian's previous service)`.  Arrivals
are processed in chronological order; the scenarios evaluated below are
tie-free (no arrival coincides with a service completion). -/

/-- Per-librarian service schedules accumulated during a run:
chronological `(start, duration)` pairs. -/
structure LibSchedule where
  svc0 : List (ℚ × ℚ)
  svc1 : List (ℚ × ℚ)
  deriving DecidableEq

/-- `self.librarians[i].count + len(self.librarians[i].queue)` at time `t`:
the number of already-assigned readers of this librarian that have not yet
finished (still holding the slot or still queued). -/
def loadAt (svc : List (ℚ × ℚ)) (t : ℚ) : ℕ :=
  (svc.filter (fun sd => decide (t < sd.1 + sd.2))).length

/-- `self.statistic['LibrarianBusy'][i]` as visible at time `t`: line 51
has credited exactly the services that completed strictly before `t`. -/
def busyAt (svc : List (ℚ × ℚ)) (t : ℚ) : ℚ :=
  ((svc.filter (fun sd => decide (sd.1 + sd.2 < t))).map Prod.snd).sum

/-- Completion time of the librarian's last assigned service (or `t` if
none): the FIFO grant instant for a request issued at `t`. -/
def lastFinish (t : ℚ) (svc : List (ℚ × ℚ)) : ℚ :=
  svc.foldl (fun m sd => max m (sd.1 + sd.2)) t

/-- Process one arrival `(t, d)`: select a librarian by the policy of
TaskB lines 30-34 and append the service to its schedule, starting at the
FIFO grant instant. -/
def libraryStep (st : LibSchedule) (ad : ℚ × ℚ) : LibSchedule :=
  if selectLibrarian (loadAt st.svc0 ad.1) (loadAt st.svc1 ad.1)
      (busyAt st.svc0 ad.1) (busyAt st.svc1 ad.1) = 0 then
    ⟨st.svc0 ++ [(lastFinish ad.1 st.svc0, ad.2)], st.svc1⟩
  else
    ⟨st.svc0, st.svc1 ++ [(lastFinish ad.1 st.svc1, ad.2)]⟩

/-- Run the library model over a chronological arrival list. -/
def libraryRun (readers : List (ℚ × ℚ)) : LibSchedule :=
  readers.foldl libraryStep ⟨[], []⟩

/-- The pair `statistic['LibrarianBusy']` reported at horizon `h`. -/
def libraryBusyPair (readers : List (ℚ × ℚ)) (h : ℚ) : ℚ × ℚ :=
  (librarianBusyCredit (libraryRun readers).svc0 h,
   librarianBusyCredit (libraryRun readers).svc1 h)

/-- C4 counterexample: horizon 100, a single reader arriving at `t = 0`
with service duration 200.  The serving librarian is busy over the whole
run `[0, 100)`, yet the reported busy times are `(0, 0)`: TaskB's `RunSim`
has no horizon close, so the interval open at the horizon is silently
dropped instead of being credited as the claimed 100. -/
theorem librarian_busy_open_interval_dropped_cex :
    libraryBusyPair [((0 : ℚ), (200 : ℚ))] 100 = (0, 0)
  ∧ (libraryBusyPair [((0 : ℚ), (200 : ℚ))] 100).1 ≠ 100
  ∧ (libraryBusyPair [((0 : ℚ), (200 : ℚ))] 100).2 ≠ 100 := by
  have hpair : libraryBusyPair [((0 : ℚ), (200 : ℚ))] 100 = (0, 0) := by
    norm_num [libraryBusyPair, libraryRun, libraryStep, loadAt, busyAt,
      lastFinish, selectLibrarian, librarianBusyCredit]
  refine ⟨hpair, ?_, ?_⟩ <;> rw [hpair] <;> norm_num

/-! ## Per-customer records (TaskA lines 47-76) -/

/-- The value stored in a customer record's `arrivalTime` key.  TaskA line
48 reads `arrivalTime = self.env` — it binds the simpy `Environment`
object itself, not the numeric clock reading `self.env.now`. -/
inductive ArrivalField where
  | envObject
  | clock (t : ℚ)
  deriving DecidableEq

/-- The per-customer record appended to `stats['customerData']` (TaskA
lines 68-75), with keys `id`, `arrivalTime`, `totalPurchases`, `waitTime`,
`serviceTime`, `exitTime`. -/
structure CustomerRecord where
  id : ℕ
  arrivalTime : ArrivalField
  totalPurchases : ℕ
  waitTime : ℚ
  serviceTime : ℚ
  exitTime : ℚ
  deriving DecidableEq

/-- Construction of the record exactly as in TaskA lines 47-75:
`arrivalTime` receives the environment object bound at line 48, and
`serviceTime` is recomputed as `totalPurchases * payTimePerItem`
(mirroring line 73). -/
def mkCustomerRecord (customerId totalPurchases : ℕ)
    (waitTime payTimePerItem now : ℚ) : CustomerRecord :=
  { id := customerId
    arrivalTime := ArrivalField.envObject
    totalPurchases := totalPurchases
    waitTime := waitTime
    serviceTime := (totalPurchases : ℚ) * payTimePerItem
    exitTime := now }

/-- C6: in every customer record — evaluated here for a concrete customer
with id 1, 7 purchases, wait 0, 3 s per item, departing at `t = 21` — the
`arrivalTime` field holds the simpy `Environment` object, not a number:
line 48 is `arrivalTime = self.env`, missing `.now`, so the field is never
the clock reading at the process start (here, the clock value 0). -/
theorem customerRecord_arrivalTime_env_eval :
    (mkCustomerRecord 1 7 0 3 21).arrivalTime = ArrivalField.envObject
  ∧ (mkCustomerRecord 1 7 0 3 21).arrivalTime ≠ ArrivalField.clock 0 := by
  exact ⟨rfl, by decide⟩

/-! ## Queue-length statistics (TaskA lines 103-126, TaskB lines 38-43 and
54-56)

Both models keep `currentQueueLength`, a running maximum and an append-only
`(timestamp, value)` log, and update all of them together in a single
`UpdateQueueStats` call after every increment and decrement — the code of
`UpdateQueueStats` is identical in TaskA (lines 124-126, fields
`maxQueueLength` / `queueLengths`) and TaskB (lines 54-56, fields
`MaxQueueLen` / `QueueLen`), so one machine embeds both. -/

/-- A queue-length change event: an entity joining (increment, TaskA line
103 / TaskB line 38) or being granted (decrement, TaskA line 112 / TaskB
line 42) at time `t`. -/
inductive QueueEv where
  | inc (t : ℚ)
  | dec (t : ℚ)
  deriving DecidableEq

/-- Queue statistics state: `current` is `currentQueueLength`, `maxLen`
the running maximum, `log` the `(timestamp, value)` series. -/
structure QueueStats where
  current : ℤ
  maxLen : ℤ
  log : List (ℚ × ℤ)
  deriving DecidableEq

/-- `UpdateQueueStats` (TaskA lines 124-126 / TaskB lines 54-56): raise
the maximum and append the current value to the log. -/
def updateQueueStats (t : ℚ) (st : QueueStats) : QueueStats :=
  { st with maxLen := max st.maxLen st.current,
            log := st.log ++ [(t, st.current)] }

/-- One queue event: change `current`, then call `UpdateQueueStats`. -/
def stepQueue (st : QueueStats) : QueueEv → QueueStats
  | .inc t => updateQueueStats t { st with current := st.current + 1 }
  | .dec t => updateQueueStats t { st with current := st.current - 1 }

/-- Queue statistics after a run, from the initial state
(`currentQueueLength = 0`, max 0, empty log). -/
def runQueue (evs : List QueueEv) : QueueStats :=
  evs.foldl stepQueue ⟨0, 0, []⟩

/-- `nonnegRun c evs`: starting from queue length `c`, no decrement ever
drives the length negative.  This holds for every trace the code can
produce, because each decrement is executed by an entity that performed
the matching increment earlier. -/
def nonnegRun (c : ℤ) : List QueueEv → Bool
  | [] => true
  | .inc _ :: r => nonnegRun (c + 1) r
  | .dec _ :: r => decide (1 ≤ c) && nonnegRun (c - 1) r

/-- Invariant tying the running maximum to the log. -/
def QInv (st : QueueStats) : Prop :=
  0 ≤ st.current ∧ st.current ≤ st.maxLen ∧
    (∀ v ∈ st.log.map Prod.snd, 0 ≤ v ∧ v ≤ st.maxLen) ∧
    (st.maxLen = 0 ∨ st.maxLen ∈ st.log.map Prod.snd)

lemma qinv_fold (evs : List QueueEv) :
    ∀ st : QueueStats, QInv st → nonnegRun st.current evs = true →
      QInv (evs.foldl stepQueue st) := by
  induction evs with
  | nil => intro st hinv _; exact hinv
  | cons e r ih =>
      intro st hinv hrun
      obtain ⟨hc0, hcm, hlog, hmem⟩ := hinv
      cases e with
      | inc t =>
          simp only [nonnegRun] at hrun
          refine ih _ ⟨?_, ?_, ?_, ?_⟩ ?_
          · show (0 : ℤ) ≤ st.current + 1
            linarith
          · show st.current + 1 ≤ max st.maxLen (st.current + 1)
            exact le_max_right _ _
          · intro v hv
            simp only [stepQueue, updateQueueStats, List.map_append,
              List.mem_append, List.map_cons, List.map_nil,
              List.mem_singleton] at hv
            rcases hv with hv | hv
            · obtain ⟨h1, h2⟩ := hlog v hv
              exact ⟨h1, le_trans h2 (le_max_left _ _)⟩
            · subst hv
              exact ⟨by linarith, le_max_right _ _⟩
          · show max st.maxLen (st.current + 1) = 0 ∨
              max st.maxLen (st.current + 1) ∈
                (st.log ++ [(t, st.current + 1)]).map Prod.snd
            right
            rcases le_total st.maxLen (st.current + 1) with hle | hle
            · rw [max_eq_right hle]
              simp
            · rw [max_eq_left hle]
              have hm2 : st.maxLen ∈ st.log.map Prod.snd := by
                rcases hmem with h0 | h0
                · exfalso
                  omega
                · exact h0
              simp only [List.map_append, List.mem_append]
              exact Or.inl hm2
          · show nonnegRun (stepQueue st (QueueEv.inc t)).current r = true
            have : (stepQueue st (QueueEv.inc t)).current = st.current + 1 :=
              rfl
            rw [this]
            exact hrun
      | dec t =>
          simp only [nonnegRun, Bool.and_eq_true, decide_eq_true_eq] at hrun
          obtain ⟨hc1, hrun⟩ := hrun
          refine ih _ ⟨?_, ?_, ?_, ?_⟩ ?_
          · show (0 : ℤ) ≤ st.current - 1
            omega
          · show st.current - 1 ≤ max st.maxLen (st.current - 1)
            exact le_max_right _ _
          · intro v hv
            simp only [stepQueue, updateQueueStats, List.map_append,
              List.mem_append, List.map_cons, List.map_nil,
              List.mem_singleton] at hv
            rcases hv with hv | hv
            · obtain ⟨h1, h2⟩ := hlog v hv
              exact ⟨h1, le_trans h2 (le_max_left _ _)⟩
            · subst hv
              exact ⟨by omega, le_max_right _ _⟩
          · show max st.maxLen (st.current - 1) = 0 ∨
              max st.maxLen (st.current - 1) ∈
                (st.log ++ [(t, st.current - 1)]).map Prod.snd
            have hle : st.current - 1 ≤ st.maxLen := by omega
            rw [max_eq_left hle]
            rcases hmem with h0 | h0
            · exact Or.inl h0
            · right
              simp only [List.map_append, List.mem_append]
              exact Or.inl h0
          · show nonnegRun (stepQueue st (QueueEv.dec t)).current r = true
            have : (stepQueue st (QueueEv.dec t)).current = st.current - 1 :=
              rfl
            rw [this]
            exact hrun

/-- C8: after any run whose queue-length trace never goes negative (true
of every trace the code produces, since each decrement follows its own
increment), if the `(timestamp, value)` log is non-empty then the reported
maximum queue length is attained in the log and bounds every logged value
— i.e. it equals the true maximum of the logged time series.  This embeds
both `UpdateQueueStats` implementations (TaskA lines 124-126, TaskB lines
54-56). -/
theorem maxQueueLen_matches_log (evs : List QueueEv)
    (hbal : nonnegRun 0 evs = true) (hne : (runQueue evs).log ≠ []) :
    (runQueue evs).maxLen ∈ (runQueue evs).log.map Prod.snd
  ∧ ∀ v ∈ (runQueue evs).log.map Prod.snd, v ≤ (runQueue evs).maxLen := by
  have hinit : QInv ⟨0, 0, []⟩ := by
    refine ⟨le_refl 0, le_refl 0, ?_, Or.inl rfl⟩
    intro v hv
    simp at hv
  have hinv : QInv (runQueue evs) := qinv_fold evs ⟨0, 0, []⟩ hinit hbal
  obtain ⟨hc0, hcm, hlog, hmem⟩ := hinv
  refine ⟨?_, fun v hv => (hlog v hv).2⟩
  rcases hmem with h0 | h0
  · have hvals : (runQueue evs).log.map Prod.snd ≠ [] := by
      simpa using hne
    obtain ⟨v0, hv0⟩ := List.exists_mem_of_ne_nil _ hvals
    obtain ⟨hv1, hv2⟩ := hlog v0 hv0
    have : v0 = (runQueue evs).maxLen := by omega
    rw [← this]
    exact hv0
  · exact h0

/-- C8 witness: the theorem applied to the concrete trace
`inc 1, inc 2, dec 3` (log values `1, 2, 1`, reported maximum 2). -/
theorem maxQueueLen_matches_log_witness :
    nonnegRun 0 [QueueEv.inc 1, QueueEv.inc 2, QueueEv.dec 3] = true
  ∧ (runQueue [QueueEv.inc 1, QueueEv.inc 2, QueueEv.dec 3]).log ≠ []
  ∧ ((runQueue [QueueEv.inc 1, QueueEv.inc 2, QueueEv.dec 3]).maxLen ∈
       (runQueue [QueueEv.inc 1, QueueEv.inc 2, QueueEv.dec 3]).log.map
         Prod.snd
     ∧ ∀ v ∈ (runQueue [QueueEv.inc 1, QueueEv.inc 2,
          QueueEv.dec 3]).log.map Prod.snd,
         v ≤ (runQueue [QueueEv.inc 1, QueueEv.inc 2,
            QueueEv.dec 3]).maxLen) :=
  ⟨by decide, by decide,
    maxQueueLen_matches_log _ (by decide) (by decide)⟩

/-! ## Statistics-relevant operations of `CustomerProcess` (TaskA 47-76)

`CustomerProcess` suspends only at `yield req` / `yield env.timeout(...)`.
Between suspensions it runs atomically.  The statistics operations it
performs, in program order, are listed per atomic segment below; a
customer abandoned at the horizon has executed exactly the segments before
the suspension at which it was parked. -/

/-- A statistics-relevant operation of the retail model. -/
inductive ROp where
  | basketInc
  | basketDec
  | queueInc
  | queueDec
  | busyEnter
  | busyClose
  | appendServiceTime (s : ℚ)
  | complete (w : ℚ) (p : ℕ) (r : CustomerRecord)
  deriving DecidableEq

/-- Recognizer for the basket increment (TaskA line 50). -/
def isBasketInc : ROp → Bool
  | .basketInc => true
  | _ => false

/-- Recognizer for the basket decrement (TaskA line 61). -/
def isBasketDec : ROp → Bool
  | .basketDec => true
  | _ => false

/-- Recognizer for the single completion point (TaskA lines 64-76). -/
def isCompleteOp : ROp → Bool
  | .complete _ _ _ => true
  | _ => false

/-- The first atomic segment of `CustomerProcess`, from process start to
its first suspension.  Line 50 increments `basketsInUse` before any yield.
If the customer visits no counter (`m = 0`), the same segment continues
through `CashierProcess` entry (lines 103-107: queue increment and
busy-marker arming) up to `yield req` on the cashier; otherwise the first
suspension is `yield req` on the first visited counter. -/
def firstSeg : ℕ → List ROp
  | 0 => [ROp.basketInc, ROp.queueInc, ROp.busyEnter]
  | _ + 1 => [ROp.basketInc]

/-- The middle atomic segments, between the first and last suspensions.
For `m ≥ 1` visited counters there are `2m - 1` segments with no
statistics operations (between each counter's `yield req` and
`yield timeout`, and between consecutive counters), then the segment after
the last counter's timeout, which enters `CashierProcess` (lines 103-107);
in every case the final middle segment is the one after the cashier's
`yield req` (lines 112-116: queue decrement and `serviceTimes` append)
ending at `yield env.timeout(serviceTime)` (line 118). -/
def middleSegs (m : ℕ) (svc : ℚ) : List (List ROp) :=
  (if m = 0 then []
   else List.replicate (2 * m - 1) [] ++ [[ROp.queueInc, ROp.busyEnter]])
    ++ [[ROp.queueDec, ROp.appendServiceTime svc]]

/-- The final atomic segment, after the service timeout elapses: the
busy-marker close (lines 120-122), the basket decrement (line 61), and the
single completion point (lines 64-76) writing `customersServed`,
`purchaseCounts`, `waitTimes` and `customerData` together. -/
def lastSeg (w : ℚ) (p : ℕ) (r : CustomerRecord) : List ROp :=
  [ROp.busyClose, ROp.basketDec, ROp.complete w p r]

/-- The atomic segments of one customer's `CustomerProcess` execution,
with `m` visited counters, service time `svc`, recorded wait `w`, purchase
count `p` and record `r`. -/
def customerSegments (m : ℕ) (svc w : ℚ) (p : ℕ) (r : CustomerRecord) :
    List (List ROp) :=
  firstSeg m :: (middleSegs m svc ++ [lastSeg w p r])

lemma countP_join_eq_zero (p : ROp → Bool) (L : List (List ROp))
    (h : ∀ seg ∈ L, seg.countP p = 0) : L.flatten.countP p = 0 := by
  induction L with
  | nil => rfl
  | cons a L ih =>
      rw [List.flatten_cons, List.countP_append,
        h a (List.mem_cons_self a L), ih (fun seg hs => h seg
          (List.mem_cons_of_mem a hs))]

lemma middleSegs_counts (m : ℕ) (svc : ℚ) :
    ∀ seg ∈ middleSegs m svc, seg.countP isBasketInc = 0
      ∧ seg.countP isBasketDec = 0 ∧ seg.countP isCompleteOp = 0 := by
  intro seg hseg
  simp only [middleSegs, List.mem_append, List.mem_singleton] at hseg
  rcases hseg with hseg | hseg
  · by_cases hm : m = 0
    · rw [if_pos hm] at hseg
      simp at hseg
    · rw [if_neg hm] at hseg
      rcases List.mem_append.mp hseg with hrep | hone
      · rw [List.eq_of_mem_replicate hrep]
        exact ⟨rfl, rfl, rfl⟩
      · rw [List.mem_singleton.mp hone]
        exact ⟨rfl, rfl, rfl⟩
  · rw [hseg]
    exact ⟨rfl, rfl, rfl⟩

lemma firstSeg_counts (m : ℕ) :
    (firstSeg m).countP isBasketInc = 1
  ∧ (firstSeg m).countP isBasketDec = 0
  ∧ (firstSeg m).countP isCompleteOp = 0 := by
  cases m with
  | zero => exact ⟨rfl, rfl, rfl⟩
  | succ k => exact ⟨rfl, rfl, rfl⟩

lemma lastSeg_counts (w : ℚ) (p : ℕ) (r : CustomerRecord) :
    (lastSeg w p r).countP isBasketInc = 0
  ∧ (lastSeg w p r).countP isBasketDec = 1
  ∧ (lastSeg w p r).countP isCompleteOp = 1 :=
  ⟨rfl, rfl, rfl⟩

/-- The truncated trace of a customer abandoned at its `j`-th suspension
(`1 ≤ j < number of segments`) keeps the whole first segment and only
middle segments. -/
lemma customerSegments_take (m : ℕ) (svc w : ℚ) (p : ℕ)
    (r : CustomerRecord) (j : ℕ) (hj1 : 1 ≤ j)
    (hj2 : j < (customerSegments m svc w p r).length) :
    (customerSegments m svc w p r).take j =
      firstSeg m :: (middleSegs m svc).take (j - 1) := by
  obtain ⟨j2, rfl⟩ : ∃ j2, j = j2 + 1 := ⟨j - 1, by omega⟩
  simp only [customerSegments, List.length_cons, List.length_append,
    List.length_singleton, List.length_nil] at hj2
  have hle : j2 ≤ (middleSegs m svc).length := by omega
  simp only [customerSegments, List.take_succ_cons, Nat.add_sub_cancel]
  rw [List.take_append_of_le_length hle]

/-- C9: a customer increments the basket-occupancy counter exactly once
(at process start, before its first suspension) and decrements it exactly
once (in its final atomic segment, on normal completion); a customer
abandoned at any suspension point `j` has performed the increment but
not the decrement, leaving the occupancy permanently incremented. -/
theorem basket_occupancy_lifecycle (m : ℕ) (svc w : ℚ) (p : ℕ)
    (r : CustomerRecord) (j : ℕ) (hj1 : 1 ≤ j)
    (hj2 : j < (customerSegments m svc w p r).length) :
    ((customerSegments m svc w p r).flatten.countP isBasketInc = 1
     ∧ (customerSegments m svc w p r).flatten.countP isBasketDec = 1)
  ∧ (((customerSegments m svc w p r).take j).flatten.countP isBasketInc = 1
     ∧ ((customerSegments m svc w p r).take j).flatten.countP isBasketDec
         = 0) := by
  obtain ⟨hf1, hf2, hf3⟩ := firstSeg_counts m
  obtain ⟨hl1, hl2, hl3⟩ := lastSeg_counts w p r
  have hmidInc : (middleSegs m svc).flatten.countP isBasketInc = 0 :=
    countP_join_eq_zero _ _ (fun seg hs => (middleSegs_counts m svc seg hs).1)
  have hmidDec : (middleSegs m svc).flatten.countP isBasketDec = 0 :=
    countP_join_eq_zero _ _
      (fun seg hs => (middleSegs_counts m svc seg hs).2.1)
  have htakeInc : ((middleSegs m svc).take (j - 1)).flatten.countP isBasketInc
      = 0 :=
    countP_join_eq_zero _ _ (fun seg hs =>
      (middleSegs_counts m svc seg (List.take_subset _ _ hs)).1)
  have htakeDec : ((middleSegs m svc).take (j - 1)).flatten.countP isBasketDec
      = 0 :=
    countP_join_eq_zero _ _ (fun seg hs =>
      (middleSegs_counts m svc seg (List.take_subset _ _ hs)).2.1)
  constructor
  · constructor
    · simp [customerSegments, List.countP_append, hf1, hmidInc, hl1]
    · simp [customerSegments, List.countP_append, hf2, hmidDec, hl2]
  · rw [customerSegments_take m svc w p r j hj1 hj2]
    constructor
    · simp only [List.flatten_cons, List.countP_append, hf1, htakeInc]
    · simp only [List.flatten_cons, List.countP_append, hf2, htakeDec]

/-- C9 witness: the lifecycle theorem applied to a customer visiting one
counter, abandoned at its first suspension (`j = 1`). -/
theorem basket_occupancy_lifecycle_witness :
    1 ≤ 1
  ∧ 1 < (customerSegments 1 15 0 3 (mkCustomerRecord 1 3 0 3 15)).length
  ∧ (((customerSegments 1 15 0 3
        (mkCustomerRecord 1 3 0 3 15)).flatten.countP isBasketInc = 1
      ∧ (customerSegments 1 15 0 3
          (mkCustomerRecord 1 3 0 3 15)).flatten.countP isBasketDec = 1)
     ∧ (((customerSegments 1 15 0 3
          (mkCustomerRecord 1 3 0 3 15)).take 1).flatten.countP isBasketInc = 1
        ∧ ((customerSegments 1 15 0 3
            (mkCustomerRecord 1 3 0 3 15)).take 1).flatten.countP isBasketDec
            = 0)) :=
  ⟨le_refl 1, by decide,
    basket_occupancy_lifecycle 1 15 0 3 (mkCustomerRecord 1 3 0 3 15) 1
      (le_refl 1) (by decide)⟩

/-! ## The single completion point and the tally lists (C10)

TaskA lines 64-76 update `customersServed`, `purchaseCounts`, `waitTimes`
and `customerData` together in the final atomic segment; TaskB lines 48-52
update `TimeWaiting`, `TimeServed`, `ReaderServed`, `LibrarianBusy` and
`BooksPerReader` together after the service timeout.  No other statement
in either file touches these fields. -/

/-- The retail statistics fields touched by `CustomerProcess` /
`CashierProcess` (busy-marker fields are modelled by `CashierAcct`, and
the timestamped queue log by `QueueStats`). -/
structure RetailStats where
  customersServed : ℕ
  waitTimes : List ℚ
  purchaseCounts : List ℕ
  customerData : List CustomerRecord
  serviceTimes : List ℚ
  basketsInUse : ℤ
  currentQueueLength : ℤ
  deriving DecidableEq

/-- The initial retail statistics (`Supermarket.__init__`, lines 30-44). -/
def initRetailStats : RetailStats := ⟨0, [], [], [], [], 0, 0⟩

/-- Effect of one retail operation on the statistics state, line by line:
`basketInc`/`basketDec` are lines 50/61, `queueInc`/`queueDec` lines
103/112, `appendServiceTime` line 116, `complete` lines 64-66 and 76;
`busyEnter`/`busyClose` touch only the busy-marker fields, which live in
`CashierAcct`. -/
def stepRetail (st : RetailStats) : ROp → RetailStats
  | .basketInc => { st with basketsInUse := st.basketsInUse + 1 }
  | .basketDec => { st with basketsInUse := st.basketsInUse - 1 }
  | .queueInc => { st with currentQueueLength := st.currentQueueLength + 1 }
  | .queueDec => { st with currentQueueLength := st.currentQueueLength - 1 }
  | .busyEnter => st
  | .busyClose => st
  | .appendServiceTime s => { st with serviceTimes := st.serviceTimes ++ [s] }
  | .complete w p r =>
      { st with customersServed := st.customersServed + 1,
                purchaseCounts := st.purchaseCounts ++ [p],
                waitTimes := st.waitTimes ++ [w],
                customerData := st.customerData ++ [r] }

/-- Retail statistics after an arbitrary interleaving of customer
operations. -/
def retailRun (ops : List ROp) : RetailStats :=
  ops.foldl stepRetail initRetailStats

/-- The retail tally synchronization invariant:
`customersServed = |waitTimes| = |purchaseCounts| = |customerData|`. -/
def tallyInvR (st : RetailStats) : Prop :=
  st.customersServed = st.waitTimes.length
  ∧ st.customersServed = st.purchaseCounts.length
  ∧ st.customersServed = st.customerData.length

/-- A statistics-relevant operation of the library model
(TaskB lines 38, 42, 48-52). -/
inductive LOp where
  | queueInc
  | queueDec
  | complete (w sv : ℚ) (books : ℕ) (second : Bool)
  deriving DecidableEq

/-- Recognizer for the reader completion point (TaskB lines 48-52). -/
def isCompleteL : LOp → Bool
  | .complete _ _ _ _ => true
  | _ => false

/-- The library statistics fields touched by `ReaderProcess` (the
timestamped queue log is modelled by `QueueStats`). -/
structure LibraryStats where
  readerServed : ℕ
  timeWaiting : List ℚ
  timeServed : List ℚ
  booksPerReader : List ℕ
  librarianBusy0 : ℚ
  librarianBusy1 : ℚ
  currentQueueLen : ℤ
  deriving DecidableEq

/-- The initial library statistics (`Library.__init__`, lines 16-25). -/
def initLibraryStats : LibraryStats := ⟨0, [], [], [], 0, 0, 0⟩

/-- Effect of one library operation, line by line: `queueInc` line 38,
`queueDec` line 42, and `complete` lines 48-52, which append the waiting
and service times, increment `ReaderServed`, credit the chosen librarian
(`second` selects index 1) and append the book count — all in the atomic
segment after the service timeout. -/
def stepLibrary (st : LibraryStats) : LOp → LibraryStats
  | .queueInc => { st with currentQueueLen := st.currentQueueLen + 1 }
  | .queueDec => { st with currentQueueLen := st.currentQueueLen - 1 }
  | .complete w sv books second =>
      { st with timeWaiting := st.timeWaiting ++ [w],
                timeServed := st.timeServed ++ [sv],
                readerServed := st.readerServed + 1,
                librarianBusy0 :=
                  if second then st.librarianBusy0 else st.librarianBusy0 + sv,
                librarianBusy1 :=
                  if second then st.librarianBusy1 + sv else st.librarianBusy1,
                booksPerReader := st.booksPerReader ++ [books] }

/-- Library statistics after an arbitrary interleaving of reader
operations. -/
def libraryStatsRun (lops : List LOp) : LibraryStats :=
  lops.foldl stepLibrary initLibraryStats

/-- The library tally synchronization invariant:
`ReaderServed = |TimeWaiting| = |TimeServed| = |BooksPerReader|`. -/
def tallyInvL (st : LibraryStats) : Prop :=
  st.readerServed = st.timeWaiting.length
  ∧ st.readerServed = st.timeServed.length
  ∧ st.readerServed = st.booksPerReader.length

/-- The atomic segments of one reader's `ReaderProcess` execution (TaskB
lines 36-52): queue increment before `yield req`, queue decrement after
the grant and before `yield env.timeout(interval)`, then the completion
point after the timeout. -/
def readerSegments (w sv : ℚ) (books : ℕ) (second : Bool) :
    List (List LOp) :=
  [[LOp.queueInc], [LOp.queueDec], [LOp.complete w sv books second]]

lemma tallyInvR_fold (ops : List ROp) :
    ∀ st : RetailStats, tallyInvR st → tallyInvR (ops.foldl stepRetail st) := by
  induction ops with
  | nil => intro st h; exact h
  | cons e r ih =>
      intro st h
      obtain ⟨h1, h2, h3⟩ := h
      refine ih _ ?_
      cases e with
      | basketInc => exact ⟨h1, h2, h3⟩
      | basketDec => exact ⟨h1, h2, h3⟩
      | queueInc => exact ⟨h1, h2, h3⟩
      | queueDec => exact ⟨h1, h2, h3⟩
      | busyEnter => exact ⟨h1, h2, h3⟩
      | busyClose => exact ⟨h1, h2, h3⟩
      | appendServiceTime s => exact ⟨h1, h2, h3⟩
      | complete w p r2 =>
          refine ⟨?_, ?_, ?_⟩ <;>
            simp only [stepRetail, List.length_append,
              List.length_singleton] <;> omega

lemma tallyInvL_fold (lops : List LOp) :
    ∀ st : LibraryStats, tallyInvL st →
      tallyInvL (lops.foldl stepLibrary st) := by
  induction lops with
  | nil => intro st h; exact h
  | cons e r ih =>
      intro st h
      obtain ⟨h1, h2, h3⟩ := h
      refine ih _ ?_
      cases e with
      | queueInc => exact ⟨h1, h2, h3⟩
      | queueDec => exact ⟨h1, h2, h3⟩
      | complete w sv books second =>
          refine ⟨?_, ?_, ?_⟩ <;>
            simp only [stepLibrary, List.length_append,
              List.length_singleton] <;> omega

/-- C10: after any interleaving of statistics operations the served count
equals the length of each completed-entity sample list, in both models
(all four fields are written together at the single completion point and
touched nowhere else); and an entity abandoned at any suspension point has
executed no completion operation, hence contributed to none of them. -/
theorem completion_tallies_sync (ops : List ROp) (lops : List LOp)
    (m : ℕ) (svc w : ℚ) (p : ℕ) (r : CustomerRecord) (j jr : ℕ)
    (hj : j < (customerSegments m svc w p r).length) (hjr : jr < 3) :
    tallyInvR (retailRun ops)
  ∧ tallyInvL (libraryStatsRun lops)
  ∧ ((customerSegments m svc w p r).take j).flatten.countP isCompleteOp = 0
  ∧ ((readerSegments w svc p true).take jr).flatten.countP isCompleteL = 0 := by
  refine ⟨tallyInvR_fold ops initRetailStats ⟨rfl, rfl, rfl⟩,
    tallyInvL_fold lops initLibraryStats ⟨rfl, rfl, rfl⟩, ?_, ?_⟩
  · cases j with
    | zero => rfl
    | succ j2 =>
        rw [customerSegments_take m svc w p r (j2 + 1) (by omega) hj]
        have hfirst := (firstSeg_counts m).2.2
        have hmid : ((middleSegs m svc).take j2).flatten.countP isCompleteOp
            = 0 :=
          countP_join_eq_zero _ _ (fun seg hs =>
            (middleSegs_counts m svc seg (List.take_subset _ _ hs)).2.2)
        simp only [List.flatten_cons, List.countP_append, Nat.add_sub_cancel,
          hfirst, hmid]
  · interval_cases jr
    · rfl
    · rfl
    · rfl

/-- C10 witness: the synchronization theorem applied to a concrete retail
trace, a concrete library trace, and truncations at the first suspension
point. -/
theorem completion_tallies_sync_witness :
    1 < (customerSegments 0 15 5 4 (mkCustomerRecord 1 4 5 3 20)).length
  ∧ 1 < 3
  ∧ (tallyInvR (retailRun [ROp.basketInc, ROp.queueInc, ROp.busyEnter,
        ROp.queueDec, ROp.appendServiceTime 15, ROp.busyClose,
        ROp.basketDec, ROp.complete 5 4 (mkCustomerRecord 1 4 5 3 20)])
     ∧ tallyInvL (libraryStatsRun [LOp.queueInc, LOp.queueDec,
          LOp.complete 0 180 2 true])
     ∧ ((customerSegments 0 15 5 4
          (mkCustomerRecord 1 4 5 3 20)).take 1).flatten.countP isCompleteOp
          = 0
     ∧ ((readerSegments 5 15 4 true).take 1).flatten.countP isCompleteL = 0) :=
  ⟨by decide, by decide,
    completion_tallies_sync
      [ROp.basketInc, ROp.queueInc, ROp.busyEnter, ROp.queueDec,
        ROp.appendServiceTime 15, ROp.busyClose, ROp.basketDec,
        ROp.complete 5 4 (mkCustomerRecord 1 4 5 3 20)]
      [LOp.queueInc, LOp.queueDec, LOp.complete 0 180 2 true]
      0 15 5 4 (mkCustomerRecord 1 4 5 3 20) 1 1 (by decide) (by decide)⟩

end MS4
